import Mathlib

/-
Verification development for the report-generation program
(generate_admin_setup_report.py) against its natural-language
specification of the document composition core.

Conventions:
- Column widths are given in tenths of an inch (the script uses
  multiples of 0.1 inch throughout; the letter-page content width is
  8.5in - 1in - 1in = 6.5in = 65 tenths).
- Table style commands are embedded with their name and their two
  (column, row) corner coordinates exactly as written in the script;
  the attribute payloads (colors, font names, pad sizes) do not affect
  any claim and are not modelled.
- Components of the composition core that live in the external
  rendering library (style registry, column-width resolution, the
  flow/pagination engine, table splitting) are modelled from the
  specification's algorithm descriptions; each such definition carries
  a doc comment saying so.
-/

/-- A table-style region command as written in the script: a command
name and the two corner coordinates `(startCol, startRow)` and
`(stopCol, stopRow)`; negative indices count from the end, as in the
source library. -/
structure RegionCmd where
  cmdName : String
  startCol : Int
  startRow : Int
  stopCol : Int
  stopRow : Int
deriving DecidableEq

/-- A hard-coded table of the script: its cell grid (rows of cell
strings), its explicit column widths in tenths of an inch, and its
style-region commands. -/
structure SrcTable where
  rows : List (List String)
  colWidthsTenths : List Nat
  cmds : List RegionCmd
deriving DecidableEq

/-- Number of rows of a table. -/
def SrcTable.nRows (t : SrcTable) : Nat := t.rows.length

/-- Number of columns of a table (taken from the first row). -/
def SrcTable.nCols (t : SrcTable) : Nat := (t.rows.headD []).length

/-- Normalise a possibly negative coordinate against a grid size, as
negative indices count from the end. -/
def normIdx (n : Nat) (i : Int) : Int := if i < 0 then (n : Int) + i else i

/-- A coordinate is valid when its normalised form lies in `[0, n)`. -/
def idxOK (n : Nat) (i : Int) : Bool :=
  decide (0 ≤ normIdx n i) && decide (normIdx n i < (n : Int))

/-- A region command is in bounds for an `nRows × nCols` grid when both
corners address valid columns and rows. -/
def cmdInBounds (nRows nCols : Nat) (c : RegionCmd) : Bool :=
  idxOK nCols c.startCol && idxOK nRows c.startRow &&
  idxOK nCols c.stopCol && idxOK nRows c.stopRow

/-- All region commands of a table are in bounds for its grid. -/
def SrcTable.cmdsInBounds (t : SrcTable) : Bool :=
  t.cmds.all (cmdInBounds t.nRows t.nCols)

/-- All rows of a table have the same column count. -/
def SrcTable.rectangular (t : SrcTable) : Bool :=
  t.rows.all (fun r => r.length == t.nCols)

/-- The eight standard header/grid commands shared by every table of
the script (background, text color, alignment, font, size, padding,
body background, grid). -/
def stdCmds : List RegionCmd :=
  [⟨"BACKGROUND", 0, 0, -1, 0⟩,
   ⟨"TEXTCOLOR", 0, 0, -1, 0⟩,
   ⟨"ALIGN", 0, 0, -1, -1⟩,
   ⟨"FONTNAME", 0, 0, -1, 0⟩,
   ⟨"FONTSIZE", 0, 0, -1, 0⟩,
   ⟨"BOTTOMPADDING", 0, 0, -1, 0⟩,
   ⟨"BACKGROUND", 0, 1, -1, -1⟩,
   ⟨"GRID", 0, 0, -1, -1⟩]

/-- The `resultado_table` of the script (results summary, 7 rows ×
3 columns, widths 2 + 2.5 + 1 inches). -/
def resultadoTable : SrcTable where
  rows :=
    [["Atributo", "Valor", "Estado"],
     ["Email", "benitocabrerar@gmail.com", "OK"],
     ["Password", "Admin123! (hash bcrypt)", "OK"],
     ["Rol", "admin", "OK"],
     ["Plan", "premium", "OK"],
     ["Estado", "Activo", "OK"],
     ["ID Usuario", "4d0611a7-3a0e-462c-b2f0-57f10f9bab61", "OK"]]
  colWidthsTenths := [20, 25, 10]
  cmds := stdCmds ++
    [⟨"VALIGN", 0, 0, -1, -1⟩,
     ⟨"FONTNAME", 2, 1, 2, -1⟩,
     ⟨"TEXTCOLOR", 2, 1, 2, -1⟩]

/-- The `recursos_table` of the script (resources, 5 rows × 3 columns,
widths 2 + 2.5 + 1.5 inches). -/
def recursosTable : SrcTable where
  rows :=
    [["Recurso", "ID/URL", "Estado"],
     ["API Backend", "legal-rag-api-qnew", "Activo"],
     ["Base de Datos", "dpg-d46iarje5dus73ar46c0-a", "Activo"],
     ["Database Name", "legal_rag_postgres", "Activo"],
     ["Workspace", "Personal", "Seleccionado"]]
  colWidthsTenths := [20, 25, 15]
  cmds := stdCmds

/-- The `seguridad_table` of the script (security aspects, 5 rows ×
3 columns, widths 2 + 2 + 1.5 inches). -/
def seguridadTable : SrcTable where
  rows :=
    [["Aspecto de Seguridad", "Implementacion", "Nivel"],
     ["Algoritmo", "bcrypt", "Alto"],
     ["Salt Rounds", "10", "Recomendado"],
     ["Longitud Hash", "60 caracteres", "Estandar"],
     ["Resistencia a Ataques", "Fuerza bruta resistente", "Alto"]]
  colWidthsTenths := [20, 20, 15]
  cmds := stdCmds

/-- The `verificacion_table` of the script (credential checks, 5 rows ×
3 columns, widths 2.5 + 2 + 1.5 inches). -/
def verificacionTable : SrcTable where
  rows :=
    [["Test", "Resultado", "Estado"],
     ["Login Email/Password", "Exitoso", "OK"],
     ["Generacion JWT", "Token valido", "OK"],
     ["Rol de Usuario", "user (incorrecto)", "Requiere Fix"],
     ["Plan de Usuario", "free (incorrecto)", "Requiere Fix"]]
  colWidthsTenths := [25, 20, 15]
  cmds := stdCmds

/-- The `estado_table` of the script (final user state, 9 rows ×
3 columns, widths 2 + 2.5 + 1.5 inches). Its last two commands address
column 3 with rows 4..5. -/
def estadoTable : SrcTable where
  rows :=
    [["Campo", "Valor", "Estado"],
     ["ID", "4d0611a7-3a0e-462c-b2f0-57f10f9bab61", "OK"],
     ["Email", "benitocabrerar@gmail.com", "OK"],
     ["Nombre", "Benito Cabrera", "OK"],
     ["Rol", "admin", "CORRECTO"],
     ["Plan", "premium", "CORRECTO"],
     ["Activo", "true", "OK"],
     ["Creado", "2025-11-14 05:29:58 UTC", "OK"],
     ["Actualizado", "2025-11-14 05:33:02 UTC", "OK"]]
  colWidthsTenths := [20, 25, 15]
  cmds := stdCmds ++
    [⟨"TEXTCOLOR", 3, 4, 3, 5⟩,
     ⟨"FONTNAME", 3, 4, 3, 5⟩]

/-- The `campos_table` of the script (field mapping, 10 rows ×
4 columns, widths 1.5 + 1.5 + 1 + 2.5 inches). -/
def camposTable : SrcTable where
  rows :=
    [["Campo TypeScript", "Campo PostgreSQL", "Tipo", "Descripcion"],
     ["id", "id", "UUID", "Identificador unico"],
     ["email", "email", "String", "Email unico del usuario"],
     ["name", "name", "String", "Nombre completo"],
     ["passwordHash", "password_hash", "String", "Hash bcrypt de password"],
     ["role", "role", "String", "Rol del usuario (user/admin)"],
     ["planTier", "plan_tier", "String", "Plan (free/premium/enterprise)"],
     ["isActive", "is_active", "Boolean", "Estado del usuario"],
     ["createdAt", "created_at", "DateTime", "Fecha de creacion"],
     ["updatedAt", "updated_at", "DateTime", "Fecha de actualizacion"]]
  colWidthsTenths := [15, 15, 10, 25]
  cmds :=
    [⟨"BACKGROUND", 0, 0, -1, 0⟩,
     ⟨"TEXTCOLOR", 0, 0, -1, 0⟩,
     ⟨"ALIGN", 0, 0, -1, -1⟩,
     ⟨"FONTNAME", 0, 0, -1, 0⟩,
     ⟨"FONTSIZE", 0, 0, -1, 0⟩,
     ⟨"FONTSIZE", 0, 1, -1, -1⟩,
     ⟨"BOTTOMPADDING", 0, 0, -1, 0⟩,
     ⟨"BACKGROUND", 0, 1, -1, -1⟩,
     ⟨"GRID", 0, 0, -1, -1⟩]

/-- The `archivos_table` of the script (created files, 6 rows ×
3 columns, widths 2.2 + 2.8 + 1.5 inches). -/
def archivosTable : SrcTable where
  rows :=
    [["Archivo", "Proposito", "Lenguaje"],
     ["create_admin_hash.mjs", "Generar hash bcrypt de password", "Node.js ES"],
     ["create_admin_user_api.mjs", "Crear usuario via API REST", "Node.js ES"],
     ["test_admin_login.mjs", "Verificar credenciales de login", "Node.js ES"],
     ["scripts/update-admin-role.ts", "Actualizar rol y plan del usuario", "TypeScript"],
     ["ADMIN_USER_SETUP_TECHNICAL_REPORT.pdf", "Este documento tecnico", "PDF"]]
  colWidthsTenths := [22, 28, 15]
  cmds := stdCmds

/-- The `problemas_table` of the script (problems and solutions, 7 rows
× 4 columns, widths 0.4 + 2 + 2.3 + 1.3 inches). -/
def problemasTable : SrcTable where
  rows :=
    [["#", "Problema", "Solucion", "Resultado"],
     ["1", "Tabla \"User\" no existe", "Usar nombre correcto \"users\" (minuscula)", "Resuelto"],
     ["2", "Columna \"isActive\" no existe", "Usar snake_case: \"is_active\"", "Resuelto"],
     ["3", "Render SQL solo lectura", "Usar API para crear usuario", "Resuelto"],
     ["4", "require() en ES module", "Cambiar a .mjs y usar import", "Resuelto"],
     ["5", "API ignora campo \"role\"", "Actualizar rol via Prisma despues", "Resuelto"],
     ["6", "prisma.users indefinido", "Usar prisma.user (singular)", "Resuelto"]]
  colWidthsTenths := [4, 20, 23, 13]
  cmds :=
    [⟨"BACKGROUND", 0, 0, -1, 0⟩,
     ⟨"TEXTCOLOR", 0, 0, -1, 0⟩,
     ⟨"ALIGN", 0, 0, -1, -1⟩,
     ⟨"FONTNAME", 0, 0, -1, 0⟩,
     ⟨"FONTSIZE", 0, 0, -1, 0⟩,
     ⟨"FONTSIZE", 0, 1, -1, -1⟩,
     ⟨"BOTTOMPADDING", 0, 0, -1, 0⟩,
     ⟨"BACKGROUND", 0, 1, -1, -1⟩,
     ⟨"GRID", 0, 0, -1, -1⟩]

/-- All eight hard-coded tables of the script, in story order. -/
def allSrcTables : List SrcTable :=
  [resultadoTable, recursosTable, seguridadTable, verificacionTable,
   estadoTable, camposTable, archivosTable, problemasTable]

/-- Modelled from the spec: a style attribute set (font family, size,
colors, alignment, spacing, indentation, weight); an unset field is
`none` and falls back to the parent during resolution. -/
structure Attrs where
  fontFamily : Option String := none
  fontSize : Option Nat := none
  textColor : Option String := none
  backColor : Option String := none
  alignment : Option String := none
  spaceBefore : Option Nat := none
  spaceAfter : Option Nat := none
  indent : Option Nat := none
  bold : Option Bool := none
deriving DecidableEq

/-- The empty attribute set (every field unset). -/
def Attrs.empty : Attrs := {}

/-- Take the first option when set, the second otherwise. -/
def overOpt {α : Type} (c p : Option α) : Option α :=
  match c with
  | some x => some x
  | none => p

/-- Modelled from the spec: field-by-field merge in which every
attribute the child sets overrides the parent and every unset
attribute falls back to the parent. -/
def mergeAttrs (child parent : Attrs) : Attrs where
  fontFamily := overOpt child.fontFamily parent.fontFamily
  fontSize := overOpt child.fontSize parent.fontSize
  textColor := overOpt child.textColor parent.textColor
  backColor := overOpt child.backColor parent.backColor
  alignment := overOpt child.alignment parent.alignment
  spaceBefore := overOpt child.spaceBefore parent.spaceBefore
  spaceAfter := overOpt child.spaceAfter parent.spaceAfter
  indent := overOpt child.indent parent.indent
  bold := overOpt child.bold parent.bold

/-- A registered named style: unique name, own attributes, optional
parent name. -/
structure StyleDef where
  name : String
  attrs : Attrs
  parent : Option String
deriving DecidableEq

/-- Modelled from the spec: the style registry, a sequence of
registered named styles. -/
abbrev Registry : Type := List StyleDef

/-- Look a style up by name. -/
def lookupStyle (reg : Registry) (n : String) : Option StyleDef :=
  reg.find? (fun s => s.name == n)

/-- Modelled from the spec: `define(name, attributes, parent)`
registers a named style; it fails with `DuplicateStyleError` if the
name already exists and with `UnknownParentError` if the parent is not
registered; on failure the registry is returned unchanged together
with the error name. -/
def define (reg : Registry) (n : String) (a : Attrs) (p : Option String) :
    Registry × Option String :=
  if (lookupStyle reg n).isSome then
    (reg, some "DuplicateStyleError")
  else
    match p with
    | none => (reg ++ [⟨n, a, none⟩], none)
    | some pn =>
      if (lookupStyle reg pn).isSome then
        (reg ++ [⟨n, a, some pn⟩], none)
      else
        (reg, some "UnknownParentError")

/-- Modelled from the spec: `resolve(name)` returns the fully merged
attribute set, the child merged over the transitively resolved parent;
the fuel argument bounds the parent-chain length (any value at least
the chain length gives the same answer on acyclic registries). -/
def resolveFuel (reg : Registry) : Nat → String → Option Attrs
  | 0, _ => none
  | fuel + 1, n =>
    match lookupStyle reg n with
    | none => none
    | some s =>
      match s.parent with
      | none => some s.attrs
      | some pn => (resolveFuel reg fuel pn).map (fun pa => mergeAttrs s.attrs pa)

/-- Modelled from the spec: the parent chain of a style, child first,
root last, given as the list of the attribute sets along the chain;
`none` when the name is unknown or the fuel is too small for the
chain. -/
def styleChain (reg : Registry) : Nat → String → Option (List Attrs)
  | 0, _ => none
  | fuel + 1, n =>
    match lookupStyle reg n with
    | none => none
    | some s =>
      match s.parent with
      | none => some [s.attrs]
      | some pn => (styleChain reg fuel pn).map (fun l => s.attrs :: l)

/-- Fold a child-first chain of attribute sets into the fully merged
set: the child overrides, unset attributes fall back transitively
toward the root. -/
def chainMerge : List Attrs → Attrs
  | [] => Attrs.empty
  | a :: r => mergeAttrs a (chainMerge r)

/-- Modelled from the spec: the names pre-registered in the sample
stylesheet the script starts from; the style definitions themselves
live in the external rendering library and only their names decide the
duplicate-name question. -/
def sampleSheetNames : List String :=
  ["Normal", "BodyText", "Italic", "Heading1", "Title", "Heading2",
   "Heading3", "Heading4", "Heading5", "Heading6", "Bullet",
   "Definition", "Code", "UnorderedList", "OrderedList"]

/-- The sample stylesheet as a registry: one registered style per
pre-existing name (attributes irrelevant to the claims). -/
def sampleRegistry : Registry :=
  sampleSheetNames.map (fun n => ⟨n, Attrs.empty, none⟩)

/-- The five style registrations performed by the script, in order:
each is a name together with its parent name (only `CenterTitle` names
a parent, the sample style `Title`). -/
def scriptStyleAdds : List (String × Option String) :=
  [("CenterTitle", some "Title"),
   ("SectionTitle", none),
   ("SubsectionTitle", none),
   ("CodeBlock", none),
   ("TableHeader", none)]

/-- Run a sequence of registrations left to right, recording whether
every single one succeeded. -/
def defineAll (reg : Registry) : List (String × Option String) → Registry × Bool
  | [] => (reg, true)
  | (n, p) :: rest =>
    match define reg n Attrs.empty p with
    | (reg2, none) => defineAll reg2 rest
    | (reg2, some _) => (reg2, false)

/-- Modelled from the spec: `resolveColumnWidths` distributes an
available width over the columns of a table spec: each explicitly
sized column receives its given width, the remaining width is divided
in equal proportion among the unspecified columns, and the call fails
with `OverconstrainedWidthError` when the explicit widths alone exceed
the available width. Widths are rational (inches). -/
def resolveColumnWidths (cols : List (Option ℚ)) (avail : ℚ) :
    Except String (List ℚ) :=
  if fixedSum cols ≤ avail then
    Except.ok (cols.map (fun o => o.getD ((avail - fixedSum cols) / (numUnspec cols : ℚ))))
  else
    Except.error "OverconstrainedWidthError"
where
  /-- Sum of the explicit column widths of a spec. -/
  fixedSum : List (Option ℚ) → ℚ
    | [] => 0
    | some w :: r => w + fixedSum r
    | none :: r => fixedSum r
  /-- Number of unspecified columns of a spec. -/
  numUnspec : List (Option ℚ) → Nat
    | [] => 0
    | some _ :: r => numUnspec r
    | none :: r => numUnspec r + 1

/-- Modelled from the spec: a content block as seen by the flow
engine, either an explicit page break or a measured content block with
its required height (in layout units). -/
inductive CBlock where
  | pageBreak : CBlock
  | content : Nat → CBlock
deriving DecidableEq

/-- Modelled from the spec: the page geometry reduced to what the flow
algorithm consumes, the usable (full-page) height after margins. -/
structure PGeom where
  fullHeight : Nat
deriving DecidableEq

/-- The running state of the paginator: the sealed pages (each a list
of the input indices of the blocks placed on it), the current page,
the remaining height of the current page, and the overflow warnings
emitted so far (as input indices). -/
structure PState where
  pages : List (List Nat)
  cur : List Nat
  remaining : Nat
  warnings : List Nat
deriving DecidableEq

/-- Seal the current page (even if empty) and start a fresh one with
the full usable height. -/
def sealPage (g : PGeom) (st : PState) : PState :=
  ⟨st.pages ++ [st.cur], [], g.fullHeight, st.warnings⟩

/-- Modelled from the spec: one step of the flow algorithm on block
number `idx`. A page break seals the current page. A content block
whose height fits the remaining height is placed on the current page;
one that exceeds even a full page is placed alone on a fresh page with
a `ContentOverflowWarning`; otherwise the current page is sealed and
the block is placed on the fresh page, where it fits. -/
def stepBlock (g : PGeom) (idx : Nat) (b : CBlock) (st : PState) : PState :=
  match b with
  | .pageBreak => sealPage g st
  | .content h =>
    if h ≤ st.remaining then
      ⟨st.pages, st.cur ++ [idx], st.remaining - h, st.warnings⟩
    else if g.fullHeight < h then
      ⟨st.pages ++ [st.cur], [idx], g.fullHeight - h, st.warnings ++ [idx]⟩
    else
      ⟨st.pages ++ [st.cur], [idx], g.fullHeight - h, st.warnings⟩

/-- Run the flow algorithm over the remaining blocks, `idx` being the
input index of the first of them. -/
def paginateAux (g : PGeom) : List CBlock → Nat → PState → PState
  | [], _, st => st
  | b :: rest, idx, st => paginateAux g rest (idx + 1) (stepBlock g idx b st)

/-- Modelled from the spec: the produced document — the sealed pages
in order (each page the list of input indices of its blocks), the
overflow warnings, and the remaining height at the end of the run. -/
structure PDoc where
  pages : List (List Nat)
  warnings : List Nat
  remaining : Nat
deriving DecidableEq

/-- Modelled from the spec: `paginate(contentBlocks, pageGeometry)`
runs the single-pass flow algorithm from an empty first page and seals
the final page on exhausting the blocks. -/
def paginate (bs : List CBlock) (g : PGeom) : PDoc :=
  let st := paginateAux g bs 0 ⟨[], [], g.fullHeight, []⟩
  ⟨st.pages ++ [st.cur], st.warnings, st.remaining⟩

/-- The input indices of the content blocks (page breaks excluded) of
a block list whose first element has input index `idx`, in input
order. -/
def contentIdxFrom : List CBlock → Nat → List Nat
  | [], _ => []
  | .pageBreak :: rest, idx => contentIdxFrom rest (idx + 1)
  | .content _ :: rest, idx => idx :: contentIdxFrom rest (idx + 1)

/-- The input indices of the content blocks whose height exceeds the
full-page height, in input order. -/
def oversizeIdxFrom (g : PGeom) : List CBlock → Nat → List Nat
  | [], _ => []
  | .pageBreak :: rest, idx => oversizeIdxFrom g rest (idx + 1)
  | .content h :: rest, idx =>
    if g.fullHeight < h then idx :: oversizeIdxFrom g rest (idx + 1)
    else oversizeIdxFrom g rest (idx + 1)

/-- The page index holding flat position `k` of the concatenation of
the pages. -/
def pageOfIdx : List (List Nat) → Nat → Nat
  | [], _ => 0
  | pg :: rest, k => if k < pg.length then 0 else pageOfIdx rest (k - pg.length) + 1

/-- The position on its page of flat position `k` of the concatenation
of the pages. -/
def posOnPage : List (List Nat) → Nat → Nat
  | [], k => k
  | pg :: rest, k => if k < pg.length then k else posOnPage rest (k - pg.length)

/-- Modelled from the spec: greedily take the longest initial run of
rows whose cumulative height fits the given budget, returning the
taken rows and the rest. -/
def takeFit {α : Type} (budget : Nat) : List (α × Nat) → List (α × Nat) × List (α × Nat)
  | [] => ([], [])
  | r :: rest =>
    if r.2 ≤ budget then
      ((takeFit (budget - r.2) rest).1.cons r, (takeFit (budget - r.2) rest).2)
    else ([], r :: rest)

/-- Modelled from the spec: split the data rows of a table into page
chunks against a per-chunk height budget; each chunk takes at least
one row (an oversize row is placed anyway rather than split mid-row)
and then greedily as many further rows as fit the rest of the budget.
The fuel argument bounds the number of chunks; the row count is always
enough fuel. -/
def splitRowsF {α : Type} (budget : Nat) : Nat → List (α × Nat) → List (List (α × Nat))
  | _, [] => []
  | 0, l => [l]
  | fuel + 1, r :: rest =>
    (r :: (takeFit (budget - r.2) rest).1) ::
      splitRowsF budget fuel (takeFit (budget - r.2) rest).2

/-- Modelled from the spec: split a table (header row plus data rows,
each with its measured height) across pages of the given usable
height: every page chunk starts with the repeated header row and
continues with a run of whole data rows. -/
def splitTable {α : Type} (header : α × Nat) (rows : List (α × Nat)) (fullH : Nat) :
    List (List (α × Nat)) :=
  (splitRowsF (fullH - header.2) rows.length rows).map (fun c => header :: c)

/-- Total measured height of a list of rows. -/
def rowTotalHeight {α : Type} (rows : List (α × Nat)) : Nat :=
  (rows.map Prod.snd).sum

/-- The header row of the ten-row field table, as written in the
script. -/
def camposHeaderRow : List String :=
  ["Campo TypeScript", "Campo PostgreSQL", "Tipo", "Descripcion"]

/-- The nine data rows of the ten-row field table, each paired with a
sample measured height of 20 units. -/
def camposDataRows : List (List String × Nat) :=
  (camposTable.rows.drop 1).map (fun r => (r, 20))

/-- The scenario registry of the spec: base style `Body(size=10)` and
child `Emphasis(parent=Body, bold=true)`, built through `define`. -/
def bodyEmphasisReg : Registry :=
  (define ((define [] "Body" { fontSize := some 10 } none).1)
    "Emphasis" { bold := some true } (some "Body")).1

/-- Modelled from the spec: `resolve(name)` with the registry length
as the parent-chain fuel (enough for every acyclic registry). -/
def resolveStyle (reg : Registry) (n : String) : Option Attrs :=
  resolveFuel reg reg.length n

/-- A small concrete block sequence exercising every branch of the
paginator: two half-page blocks, an explicit break, an oversize block
and a small block. -/
def demoBlocks : List CBlock :=
  [.content 30, .content 30, .pageBreak, .content 60, .content 10]

/-- Taking the first option over `none` is the identity. -/
theorem overOpt_none {α : Type} (c : Option α) : overOpt c none = c := by
  cases c <;> rfl

/-- Merging with the empty attribute set on the right is the
identity. -/
theorem mergeAttrs_empty (a : Attrs) : mergeAttrs a Attrs.empty = a := by
  cases a
  simp only [mergeAttrs, Attrs.empty, overOpt_none]

/-- The sum of the resolved widths is the explicit sum plus one share
per unspecified column. -/
theorem fill_sum (cols : List (Option ℚ)) (share : ℚ) :
    (cols.map (fun o => o.getD share)).sum =
      resolveColumnWidths.fixedSum cols +
        (resolveColumnWidths.numUnspec cols : ℚ) * share := by
  induction cols with
  | nil => simp [resolveColumnWidths.fixedSum, resolveColumnWidths.numUnspec]
  | cons o r ih =>
    cases o with
    | none =>
      simp only [List.map_cons, List.sum_cons, Option.getD_none,
        resolveColumnWidths.fixedSum, resolveColumnWidths.numUnspec, ih]
      push_cast
      ring
    | some w =>
      simp only [List.map_cons, List.sum_cons, Option.getD_some,
        resolveColumnWidths.fixedSum, resolveColumnWidths.numUnspec, ih]
      ring

/-- A step of the paginator never leaves more remaining height than a
full page. -/
theorem stepBlock_remaining_le (g : PGeom) (idx : Nat) (b : CBlock) (st : PState)
    (h : st.remaining ≤ g.fullHeight) :
    (stepBlock g idx b st).remaining ≤ g.fullHeight := by
  cases b with
  | pageBreak => simp [stepBlock, sealPage]
  | content hb =>
    simp only [stepBlock]
    split
    · exact le_trans (Nat.sub_le _ _) h
    · split <;> exact Nat.sub_le _ _

/-- Flattening invariant of the paginator run: sealed pages followed
by the current page always hold the already-placed indices followed by
the content indices of the remaining input, in order. -/
theorem paginateAux_join (g : PGeom) (bs : List CBlock) :
    ∀ (idx : Nat) (st : PState),
      ((paginateAux g bs idx st).pages).flatten ++ (paginateAux g bs idx st).cur =
        st.pages.flatten ++ st.cur ++ contentIdxFrom bs idx := by
  induction bs with
  | nil => intro idx st; simp [paginateAux, contentIdxFrom]
  | cons b rest ih =>
    intro idx st
    cases b with
    | pageBreak =>
      simp only [paginateAux, contentIdxFrom, stepBlock, sealPage, ih]
      simp [List.flatten_append]
    | content h =>
      simp only [paginateAux, contentIdxFrom, stepBlock]
      split
      · simp only [ih]
        simp [List.append_assoc]
      · split <;>
          · simp only [ih]
            simp [List.flatten_append, List.append_assoc]

/-- Warnings invariant of the paginator run: as long as the remaining
height never exceeds a full page, the warnings are exactly the already
emitted ones followed by the oversize content indices of the remaining
input, in order. -/
theorem paginateAux_warnings (g : PGeom) (bs : List CBlock) :
    ∀ (idx : Nat) (st : PState), st.remaining ≤ g.fullHeight →
      (paginateAux g bs idx st).warnings =
        st.warnings ++ oversizeIdxFrom g bs idx := by
  induction bs with
  | nil => intro idx st _; simp [paginateAux, oversizeIdxFrom]
  | cons b rest ih =>
    intro idx st hrem
    cases b with
    | pageBreak =>
      simp only [paginateAux, oversizeIdxFrom, stepBlock, sealPage]
      exact ih (idx + 1) _ (le_refl _)
    | content h =>
      simp only [paginateAux, oversizeIdxFrom, stepBlock]
      by_cases hfit : h ≤ st.remaining
      · have hno : ¬ g.fullHeight < h := not_lt.mpr (le_trans hfit hrem)
        simp only [if_pos hfit, if_neg hno]
        exact ih (idx + 1) _ (le_trans (Nat.sub_le _ _) hrem)
      · by_cases hover : g.fullHeight < h
        · simp only [if_neg hfit, if_pos hover]
          rw [ih (idx + 1) _ (Nat.sub_le _ _)]
          simp [List.append_assoc]
        · simp only [if_neg hfit, if_neg hover]
          exact ih (idx + 1) _ (Nat.sub_le _ _)

/-- Appending on the right keeps a known head. -/
theorem head?_append_some {α : Type} {l r : List α} {m : α}
    (h : l.head? = some m) : (l ++ r).head? = some m := by
  cases l with
  | nil => simp at h
  | cons a t => simpa using h

/-- Every oversize index is at least the starting index. -/
theorem oversizeIdxFrom_ge (g : PGeom) (bs : List CBlock) :
    ∀ (idx m : Nat), m ∈ oversizeIdxFrom g bs idx → idx ≤ m := by
  induction bs with
  | nil => intro idx m h; simp [oversizeIdxFrom] at h
  | cons b rest ih =>
    intro idx m h
    cases b with
    | pageBreak =>
      exact le_trans (Nat.le_succ idx) (ih (idx + 1) m h)
    | content hb =>
      simp only [oversizeIdxFrom] at h
      by_cases hov : g.fullHeight < hb
      · rw [if_pos hov] at h
        rcases List.mem_cons.mp h with rfl | hmem
        · exact le_refl m
        · exact le_trans (Nat.le_succ idx) (ih (idx + 1) m hmem)
      · rw [if_neg hov] at h
        exact le_trans (Nat.le_succ idx) (ih (idx + 1) m h)

/-- The oversize-index list has no duplicates. -/
theorem oversizeIdxFrom_nodup (g : PGeom) (bs : List CBlock) :
    ∀ (idx : Nat), (oversizeIdxFrom g bs idx).Nodup := by
  induction bs with
  | nil => intro idx; simp [oversizeIdxFrom]
  | cons b rest ih =>
    intro idx
    cases b with
    | pageBreak => exact ih (idx + 1)
    | content hb =>
      simp only [oversizeIdxFrom]
      by_cases hov : g.fullHeight < hb
      · rw [if_pos hov]
        refine List.nodup_cons.mpr ⟨fun hmem => ?_, ih (idx + 1)⟩
        have := oversizeIdxFrom_ge g rest (idx + 1) idx hmem
        omega
      · rw [if_neg hov]
        exact ih (idx + 1)

/-- A content block whose height exceeds the full page contributes its
index to the oversize-index list. -/
theorem oversizeIdxFrom_mem (g : PGeom) :
    ∀ (bs : List CBlock) (idx k h : Nat), bs[k]? = some (.content h) →
      g.fullHeight < h → (idx + k) ∈ oversizeIdxFrom g bs idx := by
  intro bs
  induction bs with
  | nil => intro idx k h hget _; simp at hget
  | cons b rest ih =>
    intro idx k h hget hov
    cases k with
    | zero =>
      rw [List.getElem?_cons_zero] at hget
      injection hget with hb
      subst hb
      simp only [oversizeIdxFrom, if_pos hov]
      exact List.mem_cons_self _ _
    | succ k0 =>
      rw [List.getElem?_cons_succ] at hget
      have hmem := ih (idx + 1) k0 h hget hov
      have harith : idx + (k0 + 1) = (idx + 1) + k0 := by omega
      rw [harith]
      cases b with
      | pageBreak => exact hmem
      | content hb =>
        simp only [oversizeIdxFrom]
        by_cases hov2 : g.fullHeight < hb
        · rw [if_pos hov2]
          exact List.mem_cons_of_mem _ hmem
        · rw [if_neg hov2]
          exact hmem

/-- A content block contributes its index to the content-index
list. -/
theorem contentIdxFrom_mem :
    ∀ (bs : List CBlock) (idx k h : Nat), bs[k]? = some (.content h) →
      (idx + k) ∈ contentIdxFrom bs idx := by
  intro bs
  induction bs with
  | nil => intro idx k h hget; simp at hget
  | cons b rest ih =>
    intro idx k h hget
    cases k with
    | zero =>
      rw [List.getElem?_cons_zero] at hget
      injection hget with hb
      subst hb
      exact List.mem_cons_self _ _
    | succ k0 =>
      rw [List.getElem?_cons_succ] at hget
      have hmem := ih (idx + 1) k0 h hget
      have harith : idx + (k0 + 1) = (idx + 1) + k0 := by omega
      rw [harith]
      cases b with
      | pageBreak => exact hmem
      | content hb => exact List.mem_cons_of_mem _ hmem

/-- Every content index is at least the starting index. -/
theorem contentIdxFrom_ge :
    ∀ (bs : List CBlock) (idx m : Nat), m ∈ contentIdxFrom bs idx → idx ≤ m := by
  intro bs
  induction bs with
  | nil => intro idx m h; simp [contentIdxFrom] at h
  | cons b rest ih =>
    intro idx m h
    cases b with
    | pageBreak => exact le_trans (Nat.le_succ idx) (ih (idx + 1) m h)
    | content hb =>
      rcases List.mem_cons.mp h with rfl | hmem
      · exact le_refl m
      · exact le_trans (Nat.le_succ idx) (ih (idx + 1) m hmem)

/-- The content-index list is strictly increasing. -/
theorem contentIdxFrom_pairwise :
    ∀ (bs : List CBlock) (idx : Nat),
      (contentIdxFrom bs idx).Pairwise (· < ·) := by
  intro bs
  induction bs with
  | nil => intro idx; simp [contentIdxFrom]
  | cons b rest ih =>
    intro idx
    cases b with
    | pageBreak => exact ih (idx + 1)
    | content hb =>
      refine List.pairwise_cons.mpr ⟨fun m hmem => ?_, ih (idx + 1)⟩
      have := contentIdxFrom_ge rest (idx + 1) m hmem
      omega

/-- A page head already present in the state survives the rest of the
run into the final sealed pages. -/
theorem paginateAux_head_kept (g : PGeom) (m : Nat) :
    ∀ (bs : List CBlock) (idx : Nat) (st : PState),
      ((∃ pg ∈ st.pages, pg.head? = some m) ∨ st.cur.head? = some m) →
      ∃ pg ∈ (paginateAux g bs idx st).pages ++ [(paginateAux g bs idx st).cur],
        pg.head? = some m := by
  intro bs
  induction bs with
  | nil =>
    intro idx st hst
    rcases hst with ⟨pg, hpg, hhd⟩ | hcur
    · exact ⟨pg, List.mem_append_left _ hpg, hhd⟩
    · exact ⟨st.cur, List.mem_append_right _ (List.mem_singleton.mpr rfl), hcur⟩
  | cons b rest ih =>
    intro idx st hst
    refine ih (idx + 1) (stepBlock g idx b st) ?_
    cases b with
    | pageBreak =>
      left
      rcases hst with ⟨pg, hpg, hhd⟩ | hcur
      · exact ⟨pg, List.mem_append_left _ hpg, hhd⟩
      · exact ⟨st.cur, List.mem_append_right _ (List.mem_singleton.mpr rfl), hcur⟩
    | content hb =>
      simp only [stepBlock]
      split
      · rcases hst with ⟨pg, hpg, hhd⟩ | hcur
        · exact Or.inl ⟨pg, hpg, hhd⟩
        · exact Or.inr (head?_append_some hcur)
      · split <;>
          · rcases hst with ⟨pg, hpg, hhd⟩ | hcur
            · exact Or.inl ⟨pg, List.mem_append_left _ hpg, hhd⟩
            · exact Or.inl ⟨st.cur, List.mem_append_right _ (List.mem_singleton.mpr rfl), hcur⟩

/-- An oversize content block ends up at the head of some sealed page
(the fresh page it was placed on). -/
theorem paginateAux_fresh_head (g : PGeom) :
    ∀ (bs : List CBlock) (idx : Nat) (st : PState) (k h : Nat),
      st.remaining ≤ g.fullHeight → bs[k]? = some (.content h) →
      g.fullHeight < h →
      ∃ pg ∈ (paginateAux g bs idx st).pages ++ [(paginateAux g bs idx st).cur],
        pg.head? = some (idx + k) := by
  intro bs
  induction bs with
  | nil => intro idx st k h _ hget _; simp at hget
  | cons b rest ih =>
    intro idx st k h hrem hget hov
    cases k with
    | zero =>
      rw [List.getElem?_cons_zero] at hget
      injection hget with hb
      subst hb
      have hnofit : ¬ h ≤ st.remaining := by omega
      have hstep : stepBlock g idx (.content h) st =
          ⟨st.pages ++ [st.cur], [idx], g.fullHeight - h, st.warnings ++ [idx]⟩ := by
        rw [stepBlock, if_neg hnofit, if_pos hov]
      simp only [paginateAux, hstep, Nat.add_zero]
      exact paginateAux_head_kept g idx rest (idx + 1) _ (Or.inr rfl)
    | succ k0 =>
      rw [List.getElem?_cons_succ] at hget
      have harith : idx + (k0 + 1) = (idx + 1) + k0 := by omega
      rw [harith]
      exact ih (idx + 1) (stepBlock g idx b st) k0 h
        (stepBlock_remaining_le g idx b st hrem) hget hov

/-- The page index of a flat position is monotone in the position. -/
theorem pageOfIdx_mono :
    ∀ (pages : List (List Nat)) (k l : Nat), k ≤ l →
      pageOfIdx pages k ≤ pageOfIdx pages l := by
  intro pages
  induction pages with
  | nil => intro k l _; exact le_refl _
  | cons pg rest ih =>
    intro k l hkl
    simp only [pageOfIdx]
    by_cases hk : k < pg.length
    · by_cases hl : l < pg.length
      · rw [if_pos hk, if_pos hl]
      · rw [if_pos hk, if_neg hl]
        exact Nat.zero_le _
    · have hl : ¬ l < pg.length := by omega
      rw [if_neg hk, if_neg hl]
      exact Nat.succ_le_succ (ih _ _ (Nat.sub_le_sub_right hkl _))

/-- Two distinct flat positions on the same page keep their order on
that page. -/
theorem posOnPage_lt :
    ∀ (pages : List (List Nat)) (k l : Nat), k < l →
      l < pages.flatten.length →
      pageOfIdx pages k = pageOfIdx pages l →
      posOnPage pages k < posOnPage pages l := by
  intro pages
  induction pages with
  | nil => intro k l _ hl _; simp at hl
  | cons pg rest ih =>
    intro k l hkl hl hpage
    simp only [pageOfIdx] at hpage
    simp only [posOnPage]
    by_cases hk : k < pg.length
    · by_cases hl2 : l < pg.length
      · rw [if_pos hk, if_pos hl2]
        exact hkl
      · rw [if_pos hk, if_neg hl2] at hpage
        exact absurd hpage.symm (Nat.succ_ne_zero _)
    · have hl2 : ¬ l < pg.length := by omega
      rw [if_neg hk, if_neg hl2] at hpage ⊢
      have hflat : l - pg.length < rest.flatten.length := by
        simp only [List.flatten_cons, List.length_append] at hl
        omega
      exact ih _ _ (by omega) hflat (Nat.succ_injective hpage)

/-- The page index and on-page position of a flat position address
exactly the element of the flattened pages at that position. -/
theorem pageOfIdx_addresses :
    ∀ (pages : List (List Nat)) (k : Nat), k < pages.flatten.length →
      ∃ pg, pages[pageOfIdx pages k]? = some pg ∧
        pg[posOnPage pages k]? = pages.flatten[k]? := by
  intro pages
  induction pages with
  | nil => intro k hk; simp at hk
  | cons pg rest ih =>
    intro k hk
    simp only [pageOfIdx, posOnPage]
    by_cases hkp : k < pg.length
    · rw [if_pos hkp, if_pos hkp]
      refine ⟨pg, List.getElem?_cons_zero, ?_⟩
      rw [List.flatten_cons, List.getElem?_append_left hkp]
    · rw [if_neg hkp, if_neg hkp]
      have hflat : k - pg.length < rest.flatten.length := by
        simp only [List.flatten_cons, List.length_append] at hk
        omega
      obtain ⟨pg2, hpg2, hval⟩ := ih (k - pg.length) hflat
      refine ⟨pg2, ?_, ?_⟩
      · rw [List.getElem?_cons_succ]
        exact hpg2
      · rw [List.flatten_cons, List.getElem?_append_right (by omega)]
        exact hval

/-- The two parts returned by `takeFit` recompose the input. -/
theorem takeFit_append {α : Type} :
    ∀ (budget : Nat) (l : List (α × Nat)),
      (takeFit budget l).1 ++ (takeFit budget l).2 = l := by
  intro budget l
  induction l generalizing budget with
  | nil => rfl
  | cons r rest ih =>
    simp only [takeFit]
    split
    · simp only [List.cons_append, ih]
    · rfl

/-- The rest returned by `takeFit` is no longer than the input. -/
theorem takeFit_snd_length {α : Type} :
    ∀ (budget : Nat) (l : List (α × Nat)),
      (takeFit budget l).2.length ≤ l.length := by
  intro budget l
  induction l generalizing budget with
  | nil => exact le_refl _
  | cons r rest ih =>
    simp only [takeFit]
    split
    · exact le_trans (ih _) (Nat.le_succ _)
    · exact le_refl _

/-- With enough fuel, the chunks produced by `splitRowsF` recompose
the data rows exactly: nothing dropped, nothing reordered, no row
split. -/
theorem splitRowsF_flatten {α : Type} (budget : Nat) :
    ∀ (fuel : Nat) (rows : List (α × Nat)), rows.length ≤ fuel →
      (splitRowsF budget fuel rows).flatten = rows := by
  intro fuel
  induction fuel with
  | zero =>
    intro rows hlen
    rw [Nat.le_zero, List.length_eq_zero] at hlen
    subst hlen
    rfl
  | succ f ih =>
    intro rows hlen
    cases rows with
    | nil => rfl
    | cons r rest =>
      simp only [splitRowsF, List.flatten_cons]
      have hrest : (takeFit (budget - r.2) rest).2.length ≤ f := by
        have h1 := takeFit_snd_length (budget - r.2) rest
        simp only [List.length_cons] at hlen
        omega
      rw [ih _ hrest]
      simp only [List.cons_append, takeFit_append]

/-- The flattened pages of a pagination run list exactly the input
indices of the content blocks, in input order. -/
theorem paginate_flatten (bs : List CBlock) (g : PGeom) :
    (paginate bs g).pages.flatten = contentIdxFrom bs 0 := by
  have h := paginateAux_join g bs 0 ⟨[], [], g.fullHeight, []⟩
  simp only [paginate, List.flatten_append, List.flatten_cons,
    List.flatten_nil, List.append_nil]
  simpa using h

/-- The warnings of a pagination run are exactly the oversize content
indices, in input order. -/
theorem paginate_warnings_eq (bs : List CBlock) (g : PGeom) :
    (paginate bs g).warnings = oversizeIdxFrom g bs 0 := by
  have h := paginateAux_warnings g bs 0 ⟨[], [], g.fullHeight, []⟩ (le_refl _)
  simpa [paginate] using h

/-- C1: pagination is deterministic — two runs of `paginate` on the
same block sequence and page geometry produce identical documents:
the same page count and the same assignment of blocks to each page. -/
theorem claim_C1_pagination_deterministic (bs : List CBlock) (g : PGeom)
    (d1 d2 : PDoc) (h1 : d1 = paginate bs g) (h2 : d2 = paginate bs g) :
    d1 = d2 ∧ d1.pages.length = d2.pages.length ∧
      ∀ p : Nat, d1.pages[p]? = d2.pages[p]? := by
  subst h1
  subst h2
  exact ⟨rfl, rfl, fun _ => rfl⟩

/-- Witness for C1 at a concrete five-block input and a 50-unit
page. -/
theorem claim_C1_witness :
    paginate demoBlocks ⟨50⟩ = paginate demoBlocks ⟨50⟩ ∧
    (paginate demoBlocks ⟨50⟩).pages.length =
      (paginate demoBlocks ⟨50⟩).pages.length ∧
    ∀ p : Nat, (paginate demoBlocks ⟨50⟩).pages[p]? =
      (paginate demoBlocks ⟨50⟩).pages[p]? :=
  claim_C1_pagination_deterministic demoBlocks ⟨50⟩
    (paginate demoBlocks ⟨50⟩) (paginate demoBlocks ⟨50⟩) rfl rfl

/-- C3: the region commands of seven of the eight hard-coded table
styles stay within their grids, but the final-state table
(`estado_table`, 9 rows × 3 columns) carries two commands addressing
column 3, which is out of bounds — the invariant fails on the code. -/
theorem claim_C3_estado_region_out_of_bounds :
    resultadoTable.cmdsInBounds = true ∧
    recursosTable.cmdsInBounds = true ∧
    seguridadTable.cmdsInBounds = true ∧
    verificacionTable.cmdsInBounds = true ∧
    camposTable.cmdsInBounds = true ∧
    archivosTable.cmdsInBounds = true ∧
    problemasTable.cmdsInBounds = true ∧
    estadoTable.cmdsInBounds = false ∧
    (⟨"TEXTCOLOR", 3, 4, 3, 5⟩ : RegionCmd) ∈ estadoTable.cmds ∧
    cmdInBounds estadoTable.nRows estadoTable.nCols
      ⟨"TEXTCOLOR", 3, 4, 3, 5⟩ = false := by
  decide

/-- C6: defining a style under a name that is already registered fails
with `DuplicateStyleError` and leaves the registry unchanged. -/
theorem claim_C6_duplicate_define (reg : Registry) (n : String) (a : Attrs)
    (p : Option String) (hdup : (lookupStyle reg n).isSome = true) :
    define reg n a p = (reg, some "DuplicateStyleError") := by
  simp [define, hdup]

/-- Witness for C6: re-defining the sample style `Title` fails with
`DuplicateStyleError` and returns the sample registry unchanged. -/
theorem claim_C6_witness :
    define sampleRegistry "Title" Attrs.empty none =
      (sampleRegistry, some "DuplicateStyleError") :=
  claim_C6_duplicate_define sampleRegistry "Title" Attrs.empty none (by decide)

/-- C9: the fit test is non-strict — a block whose height equals the
remaining height is placed on the current page leaving 0 remaining;
five `Spacer(20)` blocks on a 100-unit page fill one page with 0
remaining, and a sixth spacer starts a second page. -/
theorem claim_C9_exact_fit :
    (∀ (g : PGeom) (st : PState) (i h : Nat), h = st.remaining →
      stepBlock g i (.content h) st =
        ⟨st.pages, st.cur ++ [i], 0, st.warnings⟩) ∧
    paginate (List.replicate 5 (.content 20)) ⟨100⟩ =
      ⟨[[0, 1, 2, 3, 4]], [], 0⟩ ∧
    (paginate (List.replicate 6 (.content 20)) ⟨100⟩).pages =
      [[0, 1, 2, 3, 4], [5]] := by
  refine ⟨?_, by decide, by decide⟩
  intro g st i h hh
  subst hh
  simp [stepBlock, Nat.sub_self]

/-- Witness for C9: an exact-fit step at a concrete state. -/
theorem claim_C9_witness :
    stepBlock ⟨100⟩ 4 (CBlock.content 20) ⟨[], [0, 1, 2, 3], 20, []⟩ =
      ⟨[], [0, 1, 2, 3, 4], 0, []⟩ :=
  claim_C9_exact_fit.1 ⟨100⟩ ⟨[], [0, 1, 2, 3], 20, []⟩ 4 20 rfl

/-- C10: the five style names the script adds are pairwise distinct
and distinct from every pre-existing sample-stylesheet name, so all
five registrations succeed and the duplicate-name branch is
unreachable in this fixed program. -/
theorem claim_C10_style_adds_succeed :
    (scriptStyleAdds.map Prod.fst).Nodup ∧
    (∀ n ∈ scriptStyleAdds.map Prod.fst, n ∉ sampleSheetNames) ∧
    (defineAll sampleRegistry scriptStyleAdds).2 = true := by
  decide

/-- C4: pagination keeps input order — the flattened pages list the
content-block indices exactly in input order (strictly increasing), a
later flat position is never on an earlier page, equal pages preserve
on-page order, and the page/position assignment addresses exactly the
flattened sequence. -/
theorem claim_C4_order (bs : List CBlock) (g : PGeom) :
    (paginate bs g).pages.flatten = contentIdxFrom bs 0 ∧
    ((paginate bs g).pages.flatten).Pairwise (· < ·) ∧
    (∀ k l : Nat, k ≤ l →
      pageOfIdx (paginate bs g).pages k ≤ pageOfIdx (paginate bs g).pages l) ∧
    (∀ k l : Nat, k < l → l < (paginate bs g).pages.flatten.length →
      pageOfIdx (paginate bs g).pages k = pageOfIdx (paginate bs g).pages l →
      posOnPage (paginate bs g).pages k < posOnPage (paginate bs g).pages l) ∧
    (∀ k : Nat, k < (paginate bs g).pages.flatten.length →
      ∃ pg, (paginate bs g).pages[pageOfIdx (paginate bs g).pages k]? = some pg ∧
        pg[posOnPage (paginate bs g).pages k]? =
          (paginate bs g).pages.flatten[k]?) := by
  refine ⟨paginate_flatten bs g, ?_, ?_, ?_, ?_⟩
  · rw [paginate_flatten bs g]
    exact contentIdxFrom_pairwise bs 0
  · intro k l hkl
    exact pageOfIdx_mono _ k l hkl
  · intro k l h1 h2 h3
    exact posOnPage_lt _ k l h1 h2 h3
  · intro k hk
    exact pageOfIdx_addresses _ k hk

/-- Witness for C4 at the concrete five-block input: the flattened
pages equal the content indices, and page indices are monotone across
two concrete flat positions. -/
theorem claim_C4_witness :
    (paginate demoBlocks ⟨50⟩).pages.flatten = contentIdxFrom demoBlocks 0 ∧
    pageOfIdx (paginate demoBlocks ⟨50⟩).pages 0 ≤
      pageOfIdx (paginate demoBlocks ⟨50⟩).pages 3 :=
  ⟨(claim_C4_order demoBlocks ⟨50⟩).1,
   (claim_C4_order demoBlocks ⟨50⟩).2.2.1 0 3 (by decide)⟩

/-- C5: a content block whose height exceeds the full-page height is
still placed (it appears in the flattened pages, at the head of a
fresh page) and triggers exactly one overflow warning. -/
theorem claim_C5_overflow (bs : List CBlock) (g : PGeom) (i h : Nat)
    (hget : bs[i]? = some (.content h)) (hover : g.fullHeight < h) :
    i ∈ (paginate bs g).pages.flatten ∧
    (paginate bs g).warnings.count i = 1 ∧
    ∃ pg ∈ (paginate bs g).pages, pg.head? = some i := by
  refine ⟨?_, ?_, ?_⟩
  · rw [paginate_flatten bs g]
    have hmem := contentIdxFrom_mem bs 0 i h hget
    simpa using hmem
  · rw [paginate_warnings_eq bs g]
    have hmem : i ∈ oversizeIdxFrom g bs 0 := by
      simpa using oversizeIdxFrom_mem g bs 0 i h hget hover
    exact List.count_eq_one_of_mem (oversizeIdxFrom_nodup g bs 0) hmem
  · have hfresh := paginateAux_fresh_head g bs 0 ⟨[], [], g.fullHeight, []⟩ i h
      (le_refl _) hget hover
    obtain ⟨pg, hpg, hhd⟩ := hfresh
    refine ⟨pg, ?_, by simpa using hhd⟩
    simpa [paginate] using hpg

/-- Witness for C5: the 60-unit block of the demo input on a 50-unit
page is placed at the head of a page and warned about exactly once. -/
theorem claim_C5_witness :
    3 ∈ (paginate demoBlocks ⟨50⟩).pages.flatten ∧
    (paginate demoBlocks ⟨50⟩).warnings.count 3 = 1 ∧
    ∃ pg ∈ (paginate demoBlocks ⟨50⟩).pages, pg.head? = some 3 :=
  claim_C5_overflow demoBlocks ⟨50⟩ 3 60 (by decide) (by decide)

/-- C2: splitting a table whose total height exceeds a full page
produces page chunks that each begin with the repeated header row and
whose data parts recompose the data rows exactly — whole rows, in
order, never split mid-row. -/
theorem claim_C2_table_split {α : Type} (header : α × Nat)
    (rows : List (α × Nat)) (fullH : Nat)
    (_hbig : fullH < header.2 + rowTotalHeight rows) :
    ((splitTable header rows fullH).map (fun c => c.drop 1)).flatten = rows ∧
    ∀ c ∈ splitTable header rows fullH, c.head? = some header := by
  constructor
  · simp only [splitTable, List.map_map]
    have hid : ((fun c => List.drop 1 c) ∘ (fun c => header :: c)) =
        (id : List (α × Nat) → List (α × Nat)) := by
      funext c
      rfl
    rw [hid, List.map_id]
    exact splitRowsF_flatten _ rows.length rows (le_refl _)
  · intro c hc
    simp only [splitTable, List.mem_map] at hc
    obtain ⟨c0, _, rfl⟩ := hc
    rfl

/-- Witness for C2: the ten-row field table of the script (header plus
nine 20-unit data rows) split against a 100-unit page (header height
18, total height 198 exceeding the page) keeps every data row whole
and in order, and repeats the header at the top of every chunk. -/
theorem claim_C2_witness :
    ((splitTable (camposHeaderRow, 18) camposDataRows 100).map
        (fun c => c.drop 1)).flatten = camposDataRows ∧
    ∀ c ∈ splitTable (camposHeaderRow, 18) camposDataRows 100,
      c.head? = some (camposHeaderRow, 18) :=
  claim_C2_table_split (camposHeaderRow, 18) camposDataRows 100 (by decide)

/-- C7: for every acyclic style chain, `resolve` returns the fold of
the chain — each attribute the child sets overrides the parent and
every unset attribute falls back transitively toward the root; in the
spec scenario, `Emphasis(parent=Body, bold=true)` over `Body(size=10)`
resolves to size 10 with bold true. -/
theorem claim_C7_resolve_merge :
    (∀ (reg : Registry) (fuel : Nat) (n : String) (l : List Attrs),
      styleChain reg fuel n = some l →
      resolveFuel reg fuel n = some (chainMerge l)) ∧
    resolveStyle bodyEmphasisReg "Emphasis" =
      some { fontSize := some 10, bold := some true } := by
  constructor
  · intro reg fuel
    induction fuel with
    | zero =>
      intro n l hchain
      simp [styleChain] at hchain
    | succ f ih =>
      intro n l hchain
      simp only [styleChain] at hchain
      simp only [resolveFuel]
      cases hlook : lookupStyle reg n with
      | none =>
        rw [hlook] at hchain
        simp at hchain
      | some s =>
        rw [hlook] at hchain
        dsimp only at hchain ⊢
        cases hp : s.parent with
        | none =>
          rw [hp] at hchain
          simp only [Option.some.injEq] at hchain
          subst hchain
          simp [chainMerge, mergeAttrs_empty]
        | some pn =>
          rw [hp] at hchain
          simp only [Option.map_eq_some'] at hchain
          obtain ⟨l2, hl2, rfl⟩ := hchain
          have hres := ih pn l2 hl2
          simp [chainMerge, hres]
  · decide

/-- Witness for C7: the general chain theorem applied to the concrete
Body/Emphasis registry with fuel 2. -/
theorem claim_C7_witness :
    resolveFuel bodyEmphasisReg 2 "Emphasis" =
      some (chainMerge [{ bold := some true }, { fontSize := some 10 }]) :=
  claim_C7_resolve_merge.1 bodyEmphasisReg 2 "Emphasis"
    [{ bold := some true }, { fontSize := some 10 }] (by decide)

/-- Counterexample to C8 as stated: the `resultado_table` spec gives
fully explicit widths 2 + 2.5 + 1 inches against the 6.5-inch content
width; the explicit sum 5.5 is within the available width and
resolution succeeds with exactly the explicit widths, but their sum is
5.5, not the available 6.5 — so the returned widths do not always sum
to the available width. -/
theorem claim_C8_counterexample :
    resolveColumnWidths.fixedSum [some 2, some (5/2 : ℚ), some 1] ≤ (13/2 : ℚ) ∧
    resolveColumnWidths [some 2, some (5/2 : ℚ), some 1] (13/2 : ℚ) =
      Except.ok [2, 5/2, 1] ∧
    ¬ ([(2 : ℚ), 5/2, 1].sum = (13/2 : ℚ)) := by
  refine ⟨by norm_num [resolveColumnWidths.fixedSum], ?_, by norm_num⟩
  rw [resolveColumnWidths,
    if_pos (by norm_num [resolveColumnWidths.fixedSum] :
      resolveColumnWidths.fixedSum [some 2, some (5/2 : ℚ), some 1] ≤ (13/2 : ℚ))]
  simp [Option.getD]

/-- C8 (amended): when the explicit widths sum to at most the
available width, resolution succeeds, every explicitly sized column
keeps its given width, and the widths sum exactly to the available
width whenever at least one column is unspecified (with all columns
explicit the sum is the explicit total instead); when the explicit
widths exceed the available width it fails with
`OverconstrainedWidthError`. -/
theorem claim_C8_amended (cols : List (Option ℚ)) (avail : ℚ) :
    (resolveColumnWidths.fixedSum cols ≤ avail →
      ∃ ws, resolveColumnWidths cols avail = Except.ok ws ∧
        (∀ (k : Nat) (w : ℚ), cols[k]? = some (some w) → ws[k]? = some w) ∧
        (0 < resolveColumnWidths.numUnspec cols → ws.sum = avail) ∧
        (resolveColumnWidths.numUnspec cols = 0 →
          ws.sum = resolveColumnWidths.fixedSum cols)) ∧
    (avail < resolveColumnWidths.fixedSum cols →
      resolveColumnWidths cols avail =
        Except.error "OverconstrainedWidthError") := by
  constructor
  · intro hle
    refine ⟨cols.map (fun o =>
        o.getD ((avail - resolveColumnWidths.fixedSum cols) /
          (resolveColumnWidths.numUnspec cols : ℚ))), ?_, ?_, ?_, ?_⟩
    · rw [resolveColumnWidths, if_pos hle]
    · intro k w hk
      rw [List.getElem?_map, hk]
      rfl
    · intro hpos
      rw [fill_sum]
      have hne : ((resolveColumnWidths.numUnspec cols : Nat) : ℚ) ≠ 0 := by
        exact_mod_cast Nat.pos_iff_ne_zero.mp hpos
      rw [mul_comm, div_mul_cancel₀ _ hne]
      ring
    · intro hz
      rw [fill_sum, hz]
      simp
  · intro hgt
    rw [resolveColumnWidths, if_neg (not_le.mpr hgt)]

/-- Witness for the amended C8 at a spec with one unspecified column:
widths 2 and 1 inch explicit, the middle column unspecified, against
6.5 inches available. -/
theorem claim_C8_witness :
    ∃ ws, resolveColumnWidths [some 2, none, some 1] (13/2 : ℚ) =
        Except.ok ws ∧
      (∀ (k : Nat) (w : ℚ),
        [some 2, none, some (1 : ℚ)][k]? = some (some w) → ws[k]? = some w) ∧
      (0 < resolveColumnWidths.numUnspec [some 2, none, some (1 : ℚ)] →
        ws.sum = (13/2 : ℚ)) ∧
      (resolveColumnWidths.numUnspec [some 2, none, some (1 : ℚ)] = 0 →
        ws.sum = resolveColumnWidths.fixedSum [some 2, none, some (1 : ℚ)]) :=
  (claim_C8_amended [some 2, none, some 1] (13/2 : ℚ)).1
    (by norm_num [resolveColumnWidths.fixedSum])
